import Mathlib

/-!
Verification of the printable-string extractor in
`src/native-extractor/src/lib.rs` of the Android-extract repository.

Bytes are modelled as `Nat`; a Rust `String` built from printable-ASCII
chars is modelled as the list of its byte values (`List Nat`), so the
extractor returns a `List (List Nat)`.  The fallible `/proc` readers are
modelled as pure functions taking the result of each file read as an
`Except String String` argument.
-/

/-- The printability test of `extract_printable_strings`:
`byte >= 32 && byte <= 126`. -/
def isPrintableByte (b : Nat) : Bool := 32 ≤ b && b ≤ 126

/-- One iteration of the `for &byte in data` loop of
`extract_printable_strings`.  The state is the pair
`(strings, current_string)`. -/
def epsStep (min_length : Nat) (st : List (List Nat) × List Nat) (byte : Nat) :
    List (List Nat) × List Nat :=
  if isPrintableByte byte then
    (st.1, st.2 ++ [byte])
  else if min_length ≤ st.2.length then
    (st.1 ++ [st.2], [])
  else
    (st.1, [])

/-- `extract_printable_strings` from `lib.rs` lines 147-169: scan the
buffer left to right with the accumulator state, then flush the final
accumulator when it is long enough. -/
def extract_printable_strings (data : List Nat) (min_length : Nat) :
    List (List Nat) :=
  let st := data.foldl (epsStep min_length) ([], [])
  if min_length ≤ st.2.length then st.1 ++ [st.2] else st.1

/-- The scan loop preserves the invariant that every completed string is
long enough and printable-only, and the current accumulator is
printable-only. -/
lemma eps_fold_invariant (t : Nat) (data : List Nat) :
    ∀ (out : List (List Nat)) (cur : List Nat),
      (∀ s ∈ out, t ≤ s.length ∧ ∀ b ∈ s, isPrintableByte b = true) →
      (∀ b ∈ cur, isPrintableByte b = true) →
      (∀ s ∈ (data.foldl (epsStep t) (out, cur)).1,
          t ≤ s.length ∧ ∀ b ∈ s, isPrintableByte b = true) ∧
      ∀ b ∈ (data.foldl (epsStep t) (out, cur)).2, isPrintableByte b = true := by
  induction data with
  | nil => intro out cur hout hcur; exact ⟨hout, hcur⟩
  | cons b data ih =>
    intro out cur hout hcur
    rw [List.foldl_cons]
    unfold epsStep
    by_cases hb : isPrintableByte b = true
    · simp only [if_pos hb]
      refine ih out (cur ++ [b]) hout ?_
      intro x hx
      rcases List.mem_append.mp hx with hx | hx
      · exact hcur x hx
      · rw [List.mem_singleton.mp hx]; exact hb
    · simp only [if_neg hb]
      by_cases hlen : t ≤ cur.length
      · simp only [if_pos hlen]
        refine ih (out ++ [cur]) [] ?_ (by simp)
        intro s hs
        rcases List.mem_append.mp hs with hs | hs
        · exact hout s hs
        · rw [List.mem_singleton.mp hs]; exact ⟨hlen, hcur⟩
      · simp only [if_neg hlen]
        exact ih out [] hout (by simp)

/-- C1: for every byte buffer `B` and threshold `t ≥ 0`, every string in
the output of `extract_printable_strings B t` has length `≥ t` and every
byte of it lies in the closed range `[32, 126]`. -/
theorem extract_printable_strings_mem_spec (B : List Nat) (t : Nat)
    (s : List Nat) (hs : s ∈ extract_printable_strings B t) :
    t ≤ s.length ∧ ∀ b ∈ s, 32 ≤ b ∧ b ≤ 126 := by
  have hinv := eps_fold_invariant t B [] [] (by simp) (by simp)
  have hconv : ∀ x : Nat, isPrintableByte x = true → 32 ≤ x ∧ x ≤ 126 := by
    intro x hx
    simpa [isPrintableByte] using hx
  simp only [extract_printable_strings] at hs
  split at hs
  case isTrue hlen =>
    rcases List.mem_append.mp hs with hmem | hmem
    · obtain ⟨h1, h2⟩ := hinv.1 s hmem
      exact ⟨h1, fun b hb => hconv b (h2 b hb)⟩
    · rw [List.mem_singleton.mp hmem]
      exact ⟨hlen, fun b hb => hconv b (hinv.2 b hb)⟩
  case isFalse hlen =>
    obtain ⟨h1, h2⟩ := hinv.1 s hs
    exact ⟨h1, fun b hb => hconv b (h2 b hb)⟩

/-- Witness for C1 at the concrete buffer `"Hi"` with threshold 2. -/
theorem extract_printable_strings_mem_spec_witness :
    2 ≤ ([72, 105] : List Nat).length ∧
      ∀ b ∈ ([72, 105] : List Nat), 32 ≤ b ∧ b ≤ 126 :=
  extract_printable_strings_mem_spec [72, 105] 2 [72, 105] (by decide)

/-- When the threshold is at least 1, scanning non-printable bytes from an
empty accumulator emits nothing and leaves the state unchanged. -/
lemma eps_fold_nonprintable (t : Nat) (ht : 1 ≤ t) (data : List Nat) :
    ∀ out : List (List Nat), (∀ b ∈ data, isPrintableByte b = false) →
      data.foldl (epsStep t) (out, []) = (out, []) := by
  induction data with
  | nil => intro out _; rfl
  | cons b data ih =>
    intro out hnp
    rw [List.foldl_cons]
    have hb : isPrintableByte b = false := hnp b (List.mem_cons_self b data)
    have hstep : epsStep t (out, []) b = (out, []) := by
      unfold epsStep
      have h1 : ¬ (isPrintableByte b = true) := by simp [hb]
      have h2 : ¬ (t ≤ ((out, ([] : List Nat)).2).length) := by simp; omega
      rw [if_neg h1, if_neg h2]
    rw [hstep]
    exact ih out (fun x hx => hnp x (List.mem_cons_of_mem b hx))

/-- C2 counterexample: on the empty buffer with threshold 0 the final
flush pushes the empty accumulator, so the output is `[""]`, not `[]`. -/
theorem extract_printable_strings_empty_thresh0_ne_nil :
    extract_printable_strings [] 0 ≠ [] := by decide

/-- C2 (amended): for every threshold `t ≥ 1` and every buffer containing
no printable byte, `extract_printable_strings` returns the empty output
sequence.  (At `t = 0` the code instead emits one empty string per
non-printable byte plus one for the end-of-scan flush.) -/
theorem extract_printable_strings_no_printable_eq_nil (B : List Nat) (t : Nat)
    (ht : 1 ≤ t) (hB : ∀ b ∈ B, isPrintableByte b = false) :
    extract_printable_strings B t = [] := by
  simp only [extract_printable_strings]
  rw [eps_fold_nonprintable t ht B [] hB]
  have h2 : ¬ t ≤ (([] : List (List Nat)), ([] : List Nat)).2.length := by
    simp; omega
  rw [if_neg h2]

/-- Witness for amended C2: buffer `[0, 10]`, threshold 1. -/
theorem extract_printable_strings_no_printable_eq_nil_witness :
    extract_printable_strings [0, 10] 1 = [] :=
  extract_printable_strings_no_printable_eq_nil [0, 10] 1 (by decide) (by decide)

/-- C3 counterexample: with threshold 0 the code reports the empty string
(on the empty buffer the end-of-scan flush pushes the empty accumulator),
so not every reported string is non-empty. -/
theorem extract_printable_strings_thresh0_emits_empty :
    [] ∈ extract_printable_strings [] 0 := by decide

/-- C3 (amended): for every threshold `t ≥ 1`, every string reported by
`extract_printable_strings B t` is non-empty; the smallest reportable run
has length 1 at threshold 1, not at threshold 0, where empty strings are
reported. -/
theorem extract_printable_strings_pos_thresh_nonempty (B : List Nat) (t : Nat)
    (ht : 1 ≤ t) (s : List Nat) (hs : s ∈ extract_printable_strings B t) :
    s ≠ [] := by
  have hinv := eps_fold_invariant t B [] [] (by simp) (by simp)
  simp only [extract_printable_strings] at hs
  intro hnil
  subst hnil
  split at hs
  case isTrue hlen =>
    rcases List.mem_append.mp hs with hmem | hmem
    · have h := (hinv.1 [] hmem).1
      simp at h
      omega
    · have h := List.mem_singleton.mp hmem
      rw [← h] at hlen
      simp at hlen
      omega
  case isFalse hlen =>
    have h := (hinv.1 [] hs).1
    simp at h
    omega

/-- Witness for amended C3: buffer `[72]`, threshold 1, string `[72]`. -/
theorem extract_printable_strings_pos_thresh_nonempty_witness :
    ([72] : List Nat) ≠ [] :=
  extract_printable_strings_pos_thresh_nonempty [72] 1 (by decide) [72] (by decide)

/-- Modelled from the spec's state-machine view of the extractor (for the
refinement claim): IDLE is `none`, ACCUMULATING is `some acc`.  IDLE plus
a printable byte starts a new accumulator; ACCUMULATING plus a printable
byte appends; ACCUMULATING plus a non-printable byte flushes-if-long-enough
and returns to IDLE; IDLE plus a non-printable byte is a no-op. -/
def smStep (t : Nat) (st : List (List Nat) × Option (List Nat)) (b : Nat) :
    List (List Nat) × Option (List Nat) :=
  match st.2 with
  | none => if isPrintableByte b then (st.1, some [b]) else (st.1, none)
  | some acc =>
      if isPrintableByte b then (st.1, some (acc ++ [b]))
      else if t ≤ acc.length then (st.1 ++ [acc], none)
      else (st.1, none)

/-- Modelled from the spec's state-machine view: run the two-state machine
over the buffer starting IDLE; end-of-input in ACCUMULATING
flushes-if-long-enough, end-of-input in IDLE terminates. -/
def extract_sm (B : List Nat) (t : Nat) : List (List Nat) :=
  match B.foldl (smStep t) ([], none) with
  | (out, none) => out
  | (out, some acc) => if t ≤ acc.length then out ++ [acc] else out

/-- Correspondence between the accumulator-scan state and the machine
state: an empty accumulator is IDLE, a non-empty one is ACCUMULATING. -/
def toOpt (c : List Nat) : Option (List Nat) := if c = [] then none else some c

/-- For thresholds `≥ 1` the two scans stay in lock-step. -/
lemma sm_fold_agree (t : Nat) (ht : 1 ≤ t) (B : List Nat) :
    ∀ (out : List (List Nat)) (cur : List Nat),
      B.foldl (smStep t) (out, toOpt cur) =
        ((B.foldl (epsStep t) (out, cur)).1,
          toOpt (B.foldl (epsStep t) (out, cur)).2) := by
  induction B with
  | nil => intro out cur; rfl
  | cons b B ih =>
    intro out cur
    rw [List.foldl_cons, List.foldl_cons]
    have hlen0 : ¬ t ≤ 0 := by omega
    have hstep : smStep t (out, toOpt cur) b =
        ((epsStep t (out, cur) b).1, toOpt (epsStep t (out, cur) b).2) := by
      by_cases hb : isPrintableByte b = true
      · by_cases hc : cur = []
        · subst hc
          simp [smStep, epsStep, toOpt, hb]
        · simp [smStep, epsStep, toOpt, hb, hc]
      · by_cases hc : cur = []
        · subst hc
          simp [smStep, epsStep, toOpt, hb, hlen0]
        · by_cases hlen : t ≤ cur.length
          · simp [smStep, epsStep, toOpt, hb, hc, hlen]
          · simp [smStep, epsStep, toOpt, hb, hc, hlen]
    rw [hstep]
    exact ih (epsStep t (out, cur) b).1 (epsStep t (out, cur) b).2

/-- C4 counterexample: at threshold 0 the accumulator scan emits empty
strings where the state machine's IDLE no-op emits nothing, so on the
one-byte buffer `[0]` the two disagree. -/
theorem extract_printable_strings_ne_sm_thresh0 :
    ¬ (extract_printable_strings [0] 0 = extract_sm [0] 0) := by decide

/-- C4 (amended): for every byte buffer `B` and every threshold `t ≥ 1`,
the accumulator-scan implementation produces the same output sequence as
the two-state IDLE/ACCUMULATING machine view.  (At `t = 0` they differ:
the scan's flush-if-long-enough also fires on an empty accumulator.) -/
theorem extract_printable_strings_eq_sm (B : List Nat) (t : Nat)
    (ht : 1 ≤ t) : extract_printable_strings B t = extract_sm B t := by
  have hagree := sm_fold_agree t ht B [] []
  have hlen0 : ¬ t ≤ 0 := by omega
  simp only [extract_printable_strings, extract_sm]
  rw [show (([], none) : List (List Nat) × Option (List Nat)) =
        ([], toOpt []) from rfl, hagree]
  by_cases hc : (B.foldl (epsStep t) ([], [])).2 = []
  · rw [hc]
    simp [toOpt, hlen0]
  · simp [toOpt, hc]

/-- Witness for amended C4: buffer `[72, 0]`, threshold 1. -/
theorem extract_printable_strings_eq_sm_witness :
    extract_printable_strings [72, 0] 1 = extract_sm [72, 0] 1 :=
  extract_printable_strings_eq_sm [72, 0] 1 (by decide)

/-- The scan only ever keeps bytes of the processed input: the
concatenation of the completed strings followed by the live accumulator
is a subsequence (order-preserving, duplication-free) of the initial such
concatenation followed by the remaining input. -/
lemma eps_fold_flatten_sublist (t : Nat) (B : List Nat) :
    ∀ (out : List (List Nat)) (cur : List Nat),
      List.Sublist
        ((B.foldl (epsStep t) (out, cur)).1.flatten ++
          (B.foldl (epsStep t) (out, cur)).2)
        ((out.flatten ++ cur) ++ B) := by
  induction B with
  | nil =>
    intro out cur
    simp
  | cons b B ih =>
    intro out cur
    rw [List.foldl_cons]
    unfold epsStep
    by_cases hb : isPrintableByte b = true
    · simp only [if_pos hb]
      have h := ih out (cur ++ [b])
      have heq : (out.flatten ++ (cur ++ [b])) ++ B =
          (out.flatten ++ cur) ++ (b :: B) := by simp
      rwa [heq] at h
    · simp only [if_neg hb]
      by_cases hlen : t ≤ cur.length
      · simp only [if_pos hlen]
        have h := ih (out ++ [cur]) []
        have heq : ((out ++ [cur]).flatten ++ ([] : List Nat)) ++ B =
            (out.flatten ++ cur) ++ B := by simp
        rw [heq] at h
        refine h.trans ?_
        exact List.Sublist.append_left (List.sublist_cons_self b B) _
      · simp only [if_neg hlen]
        have h := ih out []
        have heq : (out.flatten ++ ([] : List Nat)) ++ B = out.flatten ++ B := by
          simp
        rw [heq] at h
        refine h.trans ?_
        have h1 : List.Sublist B (cur ++ (b :: B)) :=
          (List.sublist_cons_self b B).trans
            (List.sublist_append_right cur (b :: B))
        have h2 : List.Sublist (out.flatten ++ B)
            ((out.flatten ++ cur) ++ (b :: B)) := by
          rw [List.append_assoc]
          exact List.Sublist.append_left h1 _
        exact h2

/-- C5: for every byte buffer `B` and threshold `t`, concatenating the
strings returned by `extract_printable_strings B t`, in order, yields a
subsequence of `B`: relative order is preserved and no byte is reordered
or duplicated. -/
theorem extract_printable_strings_flatten_sublist (B : List Nat) (t : Nat) :
    List.Sublist (extract_printable_strings B t).flatten B := by
  have h := eps_fold_flatten_sublist t B [] []
  simp only [List.flatten_nil, List.nil_append] at h
  simp only [extract_printable_strings]
  split
  case isTrue hlen =>
    have heq : ((B.foldl (epsStep t) ([], [])).1 ++
        [(B.foldl (epsStep t) ([], [])).2]).flatten =
        (B.foldl (epsStep t) ([], [])).1.flatten ++
          (B.foldl (epsStep t) ([], [])).2 := by simp
    rw [heq]
    exact h
  case isFalse hlen =>
    exact (List.sublist_append_left _ _).trans h

/-- Folding a run of printable bytes only extends the accumulator. -/
lemma eps_fold_all_printable (t : Nat) (R : List Nat) :
    ∀ (out : List (List Nat)) (cur : List Nat),
      (∀ b ∈ R, isPrintableByte b = true) →
      R.foldl (epsStep t) (out, cur) = (out, cur ++ R) := by
  induction R with
  | nil => intro out cur _; simp
  | cons b R ih =>
    intro out cur hR
    rw [List.foldl_cons]
    have hb : isPrintableByte b = true := hR b (List.mem_cons_self b R)
    have hstep : epsStep t (out, cur) b = (out, cur ++ [b]) := by
      unfold epsStep
      rw [if_pos hb]
    rw [hstep, ih out (cur ++ [b]) (fun x hx => hR x (List.mem_cons_of_mem b hx))]
    simp

/-- A non-printable byte always clears the accumulator. -/
lemma eps_step_nonprintable_snd (t : Nat) (st : List (List Nat) × List Nat)
    (n : Nat) (hn : isPrintableByte n = false) : (epsStep t st n).2 = [] := by
  unfold epsStep
  rw [if_neg (by simp [hn])]
  by_cases h : t ≤ st.2.length
  · rw [if_pos h]
  · rw [if_neg h]

/-- C6: a trailing printable run that is never terminated by a
non-printable byte is still reported when its length meets the threshold
(the end-of-scan flush), whether the run is preceded by a non-printable
byte or makes up the whole buffer; concretely, on the buffer `"OK"` with
threshold 1 the output is exactly `["OK"]`. -/
theorem extract_printable_strings_trailing_run (A : List Nat) (n : Nat)
    (R : List Nat) (t : Nat) (hn : isPrintableByte n = false)
    (hR : ∀ b ∈ R, isPrintableByte b = true) (ht : t ≤ R.length) :
    (extract_printable_strings (A ++ n :: R) t).getLast? = some R ∧
      (extract_printable_strings R t).getLast? = some R ∧
      extract_printable_strings [79, 75] 1 = [[79, 75]] := by
  refine ⟨?_, ?_, by decide⟩
  · simp only [extract_printable_strings]
    rw [List.foldl_append, List.foldl_cons]
    have hsnd := eps_step_nonprintable_snd t (A.foldl (epsStep t) ([], [])) n hn
    rw [show epsStep t (A.foldl (epsStep t) ([], [])) n =
          ((epsStep t (A.foldl (epsStep t) ([], [])) n).1, []) from
        Prod.ext rfl hsnd]
    rw [eps_fold_all_printable t R _ [] hR]
    simp only [List.nil_append]
    rw [if_pos ht]
    exact List.getLast?_concat _
  · simp only [extract_printable_strings]
    rw [eps_fold_all_printable t R [] [] hR]
    simp only [List.nil_append]
    rw [if_pos ht]
    rfl

/-- Witness for C6: buffer `[0] ++ 0 :: "OK"`, run `"OK"`, threshold 1. -/
theorem extract_printable_strings_trailing_run_witness :
    (extract_printable_strings ([0] ++ 0 :: [79, 75]) 1).getLast? =
        some [79, 75] ∧
      (extract_printable_strings [79, 75] 1).getLast? = some [79, 75] ∧
      extract_printable_strings [79, 75] 1 = [[79, 75]] :=
  extract_printable_strings_trailing_run [0] 0 [79, 75] 1 (by decide)
    (by decide) (by decide)

/-- C7: on the buffer whose bytes spell `"Hello\0World\0Test123\0"` (with
`\0` the zero byte) and threshold 3, `extract_printable_strings` returns
exactly the ordered sequence `["Hello", "World", "Test123"]` (as byte
lists). -/
theorem extract_printable_strings_hello_world_test123 :
    extract_printable_strings
        [72, 101, 108, 108, 111, 0, 87, 111, 114, 108, 100, 0,
         84, 101, 115, 116, 49, 50, 51, 0] 3 =
      [[72, 101, 108, 108, 111], [87, 111, 114, 108, 100],
       [84, 101, 115, 116, 49, 50, 51]] := by decide

/-- The `cmdline.replace` of a null byte with a space in
`extract_strings_from_process`. -/
def replaceNulWithSpace (s : String) : String :=
  String.mk (s.data.map (fun ch => if ch = Char.ofNat 0 then ' ' else ch))

/-- The `Environment variables` block of `extract_strings_from_process`:
present only when the `/proc/[pid]/environ` read succeeds (`if let Ok`),
listing the non-empty null-separated entries. -/
def environSection : Except String String → String
  | Except.ok ev =>
      "Environment variables:\n" ++
        String.join
          (((ev.split (fun ch => ch = Char.ofNat 0)).filter
              (fun v => v.isEmpty = false)).map
            (fun v => "  " ++ v ++ "\n")) ++ "\n"
  | Except.error _ => ""

/-- The trailing note lines of `extract_strings_from_process`. -/
def memoryNote : String :=
  "Note: Full memory scanning requires root access\n" ++
    "Use Accessibility Service for non-root text extraction\n"

/-- `extract_strings_from_process` from `lib.rs` lines 110-137, with the
results of the two `/proc` file reads passed in as arguments: a failed
cmdline read is propagated as an error, otherwise a report string is
built; the buffer-scanning helper is never applied to any live memory. -/
def extract_strings_from_process (pid : Int) (min_length : Nat)
    (cmdline environ : Except String String) : Except String String :=
  match cmdline with
  | Except.error e => Except.error ("Failed to read cmdline: " ++ e)
  | Except.ok c =>
      Except.ok
        (("Process: " ++ replaceNulWithSpace c ++ "\n" ++
            "PID: " ++ toString pid ++ "\n" ++
            "Minimum string length: ") ++
          (toString min_length ++
            ("\n\n" ++ (environSection environ ++ memoryNote))))

/-- `read_process_memory` from `lib.rs` lines 88-107, with the maps read
result and the accessibility probe of `/proc/[pid]/mem` passed in: a
failed maps read is propagated as an error, otherwise the maps listing
plus an accessibility note is returned. -/
def read_process_memory (pid : Int) (maps : Except String String)
    (memAccessible : Bool) : Except String String :=
  match maps with
  | Except.error e =>
      Except.error ("Failed to read maps: " ++ e ++ " (requires root)")
  | Except.ok m =>
      Except.ok ("Memory maps for PID " ++ toString pid ++ ":\n" ++ m ++
        (if memAccessible then "\nMemory accessible (root available)\n"
         else "\nMemory not accessible (requires root)\n"))

/-- C8: for every process id and minimum lengths `m1`, `m2`, the
successful outputs of `extract_strings_from_process` differ only in the
`Minimum string length` header line: the live-memory path never applies
`extract_printable_strings`, so the threshold has no influence on what
text is produced. -/
theorem extract_strings_min_length_only_in_header (pid : Int)
    (m1 m2 : Nat) (cmdline environ : Except String String) (s1 s2 : String)
    (h1 : extract_strings_from_process pid m1 cmdline environ = Except.ok s1)
    (h2 : extract_strings_from_process pid m2 cmdline environ = Except.ok s2) :
    ∃ pre suf : String,
      s1 = pre ++ (toString m1 ++ suf) ∧ s2 = pre ++ (toString m2 ++ suf) := by
  cases cmdline with
  | error e => simp [extract_strings_from_process] at h1
  | ok c =>
    refine ⟨"Process: " ++ replaceNulWithSpace c ++ "\n" ++
        "PID: " ++ toString pid ++ "\n" ++ "Minimum string length: ",
      "\n\n" ++ (environSection environ ++ memoryNote), ?_, ?_⟩
    · simp only [extract_strings_from_process] at h1
      injection h1 with h
      exact h.symm
    · simp only [extract_strings_from_process] at h2
      injection h2 with h
      exact h.symm

/-- Witness for C8: pid 1, minimum lengths 3 and 5, command line
`"app"`, failed environ read. -/
theorem extract_strings_min_length_only_in_header_witness :
    ∃ pre suf : String,
      (("Process: " ++ replaceNulWithSpace "app" ++ "\n" ++
            "PID: " ++ toString (1 : Int) ++ "\n" ++
            "Minimum string length: ") ++
          (toString (3 : Nat) ++
            ("\n\n" ++ (environSection (Except.error "x") ++ memoryNote)))) =
          pre ++ (toString (3 : Nat) ++ suf) ∧
        (("Process: " ++ replaceNulWithSpace "app" ++ "\n" ++
            "PID: " ++ toString (1 : Int) ++ "\n" ++
            "Minimum string length: ") ++
          (toString (5 : Nat) ++
            ("\n\n" ++ (environSection (Except.error "x") ++ memoryNote)))) =
          pre ++ (toString (5 : Nat) ++ suf) :=
  extract_strings_min_length_only_in_header 1 3 5 (Except.ok "app")
    (Except.error "x") _ _ rfl rfl

/-- C9: a failed memory-maps read makes `read_process_memory` return an
explicit `Except.error` value carrying a descriptive message, and a failed
command-line read makes `extract_strings_from_process` return an explicit
`Except.error` value carrying a descriptive message; both failures are
surfaced as values, not as aborts. -/
theorem proc_read_failures_surface_as_error_values (pid : Int)
    (e1 e2 : String) (m : Nat) (environ : Except String String)
    (memAccessible : Bool) :
    read_process_memory pid (Except.error e1) memAccessible =
        Except.error ("Failed to read maps: " ++ e1 ++ " (requires root)") ∧
      extract_strings_from_process pid m (Except.error e2) environ =
        Except.error ("Failed to read cmdline: " ++ e2) :=
  ⟨rfl, rfl⟩

/-- C10: when the command-line read succeeds, `extract_strings_from_process`
returns `Except.ok` even when the environ read fails: the failure is
silently ignored, the `Environment variables` section is simply omitted
from the output, and the output does not depend on the environ error. -/
theorem extract_strings_ok_when_environ_fails (pid : Int) (m : Nat)
    (c e e2 : String) :
    extract_strings_from_process pid m (Except.ok c) (Except.error e) =
        Except.ok
          (("Process: " ++ replaceNulWithSpace c ++ "\n" ++
              "PID: " ++ toString pid ++ "\n" ++
              "Minimum string length: ") ++
            (toString m ++ ("\n\n" ++ memoryNote))) ∧
      environSection (Except.error e) = "" ∧
      extract_strings_from_process pid m (Except.ok c) (Except.error e) =
        extract_strings_from_process pid m (Except.ok c) (Except.error e2) := by
  refine ⟨?_, rfl, rfl⟩
  simp [extract_strings_from_process, environSection]
